import Mathlib

/-!
# Verification of the Ultimate Tic-Tac-Toe engine and sync protocol

Shallow embedding of the game logic in `script.js` (client engine and
peer-message handlers) and of the REST backend (`/api/move` handler and its
`checkBoard` helper), together with a model of the client dial/retry loop.

Conventions of the embedding:
* JS strings stay strings: a cell holds `"X"`, `"O"` or `""`; a big-board
  slot additionally may hold `"T"`.
* JS arrays become `List`s; an out-of-range JS read (`undefined`) is modelled
  with `List.get?` returning `none`, so that the JS comparison
  `undefined !== ''` corresponds to `get? i ≠ some ""`.
* A handler that returns early without touching any state is modelled as
  returning `none`; an accepted operation returns `some` of the new state.
  In the source every rejecting `return` happens before the first mutation,
  so this is faithful.
-/

namespace UTTT

/-- The game-relevant mutable state of one participant in `script.js`:
`smallBoards`, `bigBoard`, `nextBoardIndex`, `currentPlayer`, `gameOver`. -/
@[ext]
structure GameState where
  smallBoards : List (List String)
  bigBoard : List String
  nextBoardIndex : Option Nat
  currentPlayer : String
  gameOver : Bool
deriving DecidableEq, Repr

/-- The per-participant variables of `script.js` that the handlers consult in
addition to the `GameState`: `mode` ("local" or "online"), `myMark`,
`opponentMark` and `myTurn`. -/
structure Client where
  gs : GameState
  mode : String
  myMark : String
  opponentMark : String
  myTurn : Bool
deriving DecidableEq, Repr

/-- The eight `winningLines` of `checkBoardStatus`. -/
def winningLines : List (Nat × Nat × Nat) :=
  [(0, 1, 2), (3, 4, 5), (6, 7, 8), (0, 3, 6), (1, 4, 7), (2, 5, 8), (0, 4, 8), (2, 4, 6)]

/-- The loop condition of `checkBoardStatus` for one line: the first slot of
the line holds `"X"` or `"O"` and the other two slots hold the same mark. -/
def lineWins (board : List String) (l : Nat × Nat × Nat) : Prop :=
  (board.getD l.1 "" = "X" ∨ board.getD l.1 "" = "O") ∧
    board.getD l.1 "" = board.getD l.2.1 "" ∧ board.getD l.1 "" = board.getD l.2.2 ""

instance (board : List String) (l : Nat × Nat × Nat) : Decidable (lineWins board l) := by
  unfold lineWins
  infer_instance

/-- The `for` loop of `checkBoardStatus`: return the mark of the first line
whose three slots hold the same mark, where only `"X"` and `"O"` count. -/
def findWin (board : List String) : List (Nat × Nat × Nat) → Option String
  | [] => none
  | l :: rest =>
    if lineWins board l then some (board.getD l.1 "")
    else findWin board rest

/-- Function `checkBoardStatus` of `script.js`: first scan the eight lines for a win;
otherwise report `"T"` when every slot is neither `""` nor `"T"`
(the JS `full` test), else `""`. -/
def checkBoardStatus (board : List String) : String :=
  match findWin board winningLines with
  | some mark => mark
  | none => if board.all fun v => (v != "") && (v != "T") then "T" else ""

/-- Function `initGame` of `script.js` restricted to the game state: nine empty small
boards, empty big board, no forced board, `X` to move, not over. -/
def initGame : GameState where
  smallBoards := List.replicate 9 (List.replicate 9 "")
  bigBoard := List.replicate 9 ""
  nextBoardIndex := none
  currentPlayer := "X"
  gameOver := false

/-- JS `smallBoards[b][c]`: `none` models the JS `undefined` for an
out-of-range index. -/
def cellAt (s : GameState) (b c : Nat) : Option String :=
  (s.smallBoards.get? b).bind fun row => row.get? c

/-- The mutation `smallBoards[boardIdx][cellIdx] = mark`, shared verbatim by
`handleCellClick` and `handleRemoteMove`. -/
def placeSmall (gs : GameState) (b c : Nat) (mark : String) : List (List String) :=
  gs.smallBoards.set b ((gs.smallBoards.getD b []).set c mark)

/-- The small-board re-evaluation after a placement:
`checkBoardStatus(smallBoards[boardIdx])`. -/
def smallStatus (gs : GameState) (b c : Nat) (mark : String) : String :=
  checkBoardStatus ((placeSmall gs b c mark).getD b [])

/-- The conditional big-board commit shared by both handlers: write the
small-board result into slot `b` when it is non-empty. -/
def moveBig (gs : GameState) (b c : Nat) (mark : String) : List String :=
  if smallStatus gs b c mark ≠ "" then gs.bigBoard.set b (smallStatus gs b c mark)
  else gs.bigBoard

/-- The shared forced-board update: `nextBoardIndex = cellIdx`, cleared when
that big-board slot is no longer open. -/
def nextForced (big2 : List String) (c : Nat) : Option Nat :=
  if big2.get? c ≠ some "" then none else some c

/-- Function `handleCellClick` of `script.js`, stripped of DOM rendering: the guards in
source order (game over; online mode while not my turn; forced-board
mismatch; big-board slot not open; cell not empty), then the mutation
sequence; when the move ends the game, `nextBoardIndex`, `currentPlayer`
and `myTurn` keep their pre-move values.  Rejection (an early `return` in
JS, before any mutation or send) is `none`. -/
def handleCellClick (cl : Client) (b c : Nat) : Option Client :=
  if cl.gs.gameOver then none
  else if cl.mode = "online" ∧ cl.myTurn = false then none
  else if cl.gs.nextBoardIndex ≠ none ∧ cl.gs.nextBoardIndex ≠ some b then none
  else if cl.gs.bigBoard.get? b ≠ some "" then none
  else if cellAt cl.gs b c ≠ some "" then none
  else if checkBoardStatus (moveBig cl.gs b c cl.gs.currentPlayer) = "X" ∨
      checkBoardStatus (moveBig cl.gs b c cl.gs.currentPlayer) = "O" ∨
      checkBoardStatus (moveBig cl.gs b c cl.gs.currentPlayer) = "T" then
    some { cl with gs := { cl.gs with smallBoards := placeSmall cl.gs b c cl.gs.currentPlayer, bigBoard := moveBig cl.gs b c cl.gs.currentPlayer, gameOver := true } }
  else
    some { cl with gs := { cl.gs with smallBoards := placeSmall cl.gs b c cl.gs.currentPlayer, bigBoard := moveBig cl.gs b c cl.gs.currentPlayer, nextBoardIndex := nextForced (moveBig cl.gs b c cl.gs.currentPlayer) c, currentPlayer := if cl.gs.currentPlayer = "X" then "O" else "X" }, myTurn := if cl.mode = "online" then false else cl.myTurn }

/-- Function `handleRemoteMove` of `script.js`: guards (game over; big-board slot not
open; cell not empty — note: no forced-board and no turn check), then the
mutation sequence placing `opponentMark`; `nextBoardIndex` and
`currentPlayer` are updated unconditionally, even when the move ends the
game, and the game-over test compares against `myMark`/`opponentMark`
instead of the literals `"X"`/`"O"`. -/
def handleRemoteMove (cl : Client) (b c : Nat) : Option Client :=
  if cl.gs.gameOver then none
  else if cl.gs.bigBoard.get? b ≠ some "" then none
  else if cellAt cl.gs b c ≠ some "" then none
  else
    some { cl with gs := { cl.gs with smallBoards := placeSmall cl.gs b c cl.opponentMark, bigBoard := moveBig cl.gs b c cl.opponentMark, gameOver := decide (checkBoardStatus (moveBig cl.gs b c cl.opponentMark) = cl.myMark ∨ checkBoardStatus (moveBig cl.gs b c cl.opponentMark) = cl.opponentMark ∨ checkBoardStatus (moveBig cl.gs b c cl.opponentMark) = "T"), nextBoardIndex := nextForced (moveBig cl.gs b c cl.opponentMark) c, currentPlayer := cl.myMark }, myTurn := true }

/-- The participant state right after `startOnlineGameAsHost`. -/
def hostStart : Client where
  gs := initGame
  mode := "online"
  myMark := "X"
  opponentMark := "O"
  myTurn := true

/-- The participant state right after `startOnlineGameAsClient`. -/
def clientStart : Client where
  gs := initGame
  mode := "online"
  myMark := "O"
  opponentMark := "X"
  myTurn := false

/-- The participant state after page-load `initGame` in local mode
(`myMark`/`opponentMark` still unassigned, modelled as `""`). -/
def localStart : Client where
  gs := initGame
  mode := "local"
  myMark := ""
  opponentMark := ""
  myTurn := false

/-- Replays a list of `(boardIdx, cellIdx)` moves through `handleCellClick`,
failing if any move is rejected. -/
def replay (cl : Client) : List (Nat × Nat) → Option Client
  | [] => some cl
  | (b, c) :: ms => (handleCellClick cl b c).bind fun cl2 => replay cl2 ms

/-- Runs one networked game on both participants: the mover applies a move
through `handleCellClick` and the other side applies the identical
`Move{boardIdx, cellIdx}` message through `handleRemoteMove`.  The `Bool`
says whether the host is the next mover.  Fails if any side rejects. -/
def replayPair (h cl : Client) : List (Nat × Nat) → Bool → Option (Client × Client)
  | [], _ => some (h, cl)
  | (b, c) :: ms, hostToMove =>
    if hostToMove then
      match handleCellClick h b c, handleRemoteMove cl b c with
      | some h2, some c2 => replayPair h2 c2 ms false
      | _, _ => none
    else
      match handleCellClick cl b c, handleRemoteMove h b c with
      | some c2, some h2 => replayPair h2 c2 ms true
      | _, _ => none

/-- One stored game object of the REST backend, as built by `makeGame`. -/
structure ServerGame where
  id : String
  smallBoards : List (List String)
  bigBoard : List String
  nextBoardIndex : Option Nat
  currentPlayer : String
  gameOver : Bool
  playersHost : Bool
  playersJoin : Bool
deriving DecidableEq, Repr

/-- Function `makeGame` of the backend. -/
def makeGame (id : String) : ServerGame where
  id := id
  smallBoards := List.replicate 9 (List.replicate 9 "")
  bigBoard := List.replicate 9 ""
  nextBoardIndex := none
  currentPlayer := "X"
  gameOver := false
  playersHost := true
  playersJoin := false

/-- Function `checkBoard` of the backend.  Differs from the client's
`checkBoardStatus`: any truthy (non-empty) string wins a line, and the tie
test only asks that every cell be truthy. -/
def checkBoard (board : List String) : List (Nat × Nat × Nat) → String
  | [] => if board.all fun v => v != "" then "T" else ""
  | l :: rest =>
    let a := board.getD l.1 ""
    if a ≠ "" ∧ a = board.getD l.2.1 "" ∧ board.getD l.2.1 "" = board.getD l.2.2 "" then a
    else checkBoard board rest

/-- The response of the `/api/move` branch of `handleAPI`: `ok` carries the
updated game (HTTP 200), `invalid` is the 400 "Invalid move" error, and
`notFound` is the 404 for a missing or finished game. -/
inductive ApiResponse
  | ok (g : ServerGame)
  | invalid
  | notFound
deriving DecidableEq, Repr

/-- The in-memory `games` store of the backend, keyed by game id. -/
def Store := List (String × ServerGame)

instance : DecidableEq Store := by unfold Store; infer_instance

/-- Replacing one stored game models the backend's in-place mutation of the
object found in `games`. -/
def storePut (games : Store) (gid : String) (g : ServerGame) : Store :=
  List.map (fun p => if p.1 = gid then (p.1, g) else p) games

/-- The big-board commit of the `/api/move` success path: write the
`checkBoard` result of the mutated small board `sb2` into slot `b` when it
is truthy. -/
def srvBig (game : ServerGame) (b : Nat) (sb2 : List String) : List String :=
  if checkBoard sb2 winningLines ≠ "" then game.bigBoard.set b (checkBoard sb2 winningLines)
  else game.bigBoard

/-- The mutations of the `/api/move` success path applied to the stored game:
write `mark` into the cell, commit the small-board result, recompute
`gameOver`, set `nextBoardIndex` from `cellIdx`, and flip `currentPlayer`
from the submitted `mark`. -/
def applyApiMove (game : ServerGame) (sb : List String) (b c : Nat) (mark : String) : ServerGame :=
  { game with
    smallBoards := game.smallBoards.set b (sb.set c mark)
    bigBoard := srvBig game b (sb.set c mark)
    gameOver := if checkBoard (srvBig game b (sb.set c mark)) winningLines ≠ "" then true else game.gameOver
    nextBoardIndex := if (srvBig game b (sb.set c mark)).get? c = some "" then some c else none
    currentPlayer := if mark = "X" then "O" else "X" }

/-- The `/api/move` branch of `handleAPI`: look up the game (404 if missing or
finished); answer 400 when the small board is absent, the cell is truthy, or
a present `nextBoardIndex` differs from `boardIdx`; otherwise mutate the
game and answer it.  Note: no check of the big-board slot and no check of
`mark` against `currentPlayer`.  Returns the store after the request and the
response. -/
def apiMove (games : Store) (gid : String) (b c : Nat) (mark : String) : Store × ApiResponse :=
  match List.lookup gid games with
  | none => (games, ApiResponse.notFound)
  | some game =>
    if game.gameOver then (games, ApiResponse.notFound)
    else
      match game.smallBoards.get? b with
      | none => (games, ApiResponse.invalid)
      | some sb =>
        if sb.getD c "" ≠ "" then (games, ApiResponse.invalid)
        else if game.nextBoardIndex ≠ none ∧ game.nextBoardIndex ≠ some b then (games, ApiResponse.invalid)
        else (storePut games gid (applyApiMove game sb b c mark), ApiResponse.ok (applyApiMove game sb b c mark))

/-- The fixed dial backoff of `connectToHost`: 1500 milliseconds. -/
def retryDelayMs : Nat := 1500

/-- The outcome the transport reports for one dial attempt in
`connectToHost`: the connection opened, or an error of the given type fired. -/
inductive DialEvent
  | opened
  | fail (t : String)
deriving DecidableEq, Repr

/-- How a run of `connectToHost` ends: connection established; the terminal
"Unable to connect" message after the attempt budget is spent; an error
surfaced to the caller as "Connection error: t"; or still pending because the
transport never reported anything. -/
inductive DialResult
  | connected
  | gaveUp
  | surfaced (t : String)
  | pending
deriving DecidableEq, Repr

/-- Function `connectToHost` of `script.js`, driven by the script of per-attempt
transport outcomes.  The first argument is `attemptsLeft` (5 at the initial
call).  A "peer-unavailable" error re-dials with `attemptsLeft - 1` after a
`retryDelayMs` timeout; the second component accumulates those waits.  Any
other error is surfaced immediately. -/
def connectToHost : Nat → List DialEvent → DialResult × Nat
  | 0, _ => (DialResult.gaveUp, 0)
  | _ + 1, [] => (DialResult.pending, 0)
  | _ + 1, DialEvent.opened :: _ => (DialResult.connected, 0)
  | a + 1, DialEvent.fail t :: rest =>
    if t = "peer-unavailable" then
      let r := connectToHost a rest
      (r.1, retryDelayMs + r.2)
    else (DialResult.surfaced t, 0)

/-- A fully occupied big board with a tied slot and no completed line: the
three rows read X O X / X O O / O X T. -/
def tieSlotBoard : List String :=
  ["X", "O", "X", "X", "O", "O", "O", "X", "T"]

/-- The mark whose turn it is after `n` accepted moves from the start. -/
def parityMark (n : Nat) : String :=
  if n % 2 = 0 then "X" else "O"

/-- Sixteen legal moves from the fresh game, after which X has won small
boards 0 and 1 and O has won small boards 3 and 4; a seventeenth move
(2, 5) wins small board 2 and with it the game for X. -/
def moves16 : List (Nat × Nat) :=
  [(0, 3), (3, 0), (0, 4), (4, 0), (0, 5), (5, 1), (1, 3), (3, 1),
    (1, 4), (4, 1), (1, 5), (5, 2), (2, 3), (3, 2), (2, 4), (4, 2)]

/-- Both participants after the sixteen moves of `moves16`, host moving
first, each side applying its own moves locally and the peer's moves through
`handleRemoteMove`. -/
def pair16 : Option (Client × Client) :=
  replayPair hostStart clientStart moves16 true

theorem findWin_eq_none {board : List String} {ls : List (Nat × Nat × Nat)} :
    findWin board ls = none ↔ ∀ l ∈ ls, ¬ lineWins board l := by
  induction ls with
  | nil => simp [findWin]
  | cons l rest ih =>
    by_cases h : lineWins board l
    · simp [findWin, h]
    · simp [findWin, h, ih]

theorem findWin_eq_some {board : List String} {ls : List (Nat × Nat × Nat)} {m : String}
    (h : findWin board ls = some m) :
    ∃ l ∈ ls, lineWins board l ∧ m = board.getD l.1 "" := by
  induction ls with
  | nil => simp [findWin] at h
  | cons l rest ih =>
    by_cases hl : lineWins board l
    · simp only [findWin, if_pos hl, Option.some.injEq] at h
      exact ⟨l, by simp, hl, h.symm⟩
    · simp only [findWin, if_neg hl] at h
      obtain ⟨l2, hml, hw, hm⟩ := ih h
      exact ⟨l2, by simp [hml], hw, hm⟩

/-- C9: `checkBoardStatus` is a total function: on every 9-element list of
strings — whatever the strings are — it returns one of `"X"`, `"O"`, `"T"`,
`""`.  Purity and non-mutation of the argument hold by construction of the
embedding (the source reads the array but never writes it). -/
theorem checkBoardStatus_total (board : List String) (hlen : board.length = 9) :
    checkBoardStatus board = "X" ∨ checkBoardStatus board = "O" ∨
      checkBoardStatus board = "T" ∨ checkBoardStatus board = "" := by
  unfold checkBoardStatus
  cases hf : findWin board winningLines with
  | none =>
    by_cases hfull : (board.all fun v => (v != "") && (v != "T")) = true <;> simp [hfull]
  | some m =>
    obtain ⟨l, -, hw, hm⟩ := findWin_eq_some hf
    rcases hw.1 with h1 | h1 <;> subst hm <;> rw [h1] <;> tauto

/-- C9 witness: a 9-element board of garbage strings evaluates to one of the
four results (here `"T"`). -/
theorem checkBoardStatus_total_w :
    (List.replicate 9 "Z").length = 9 ∧
      (checkBoardStatus (List.replicate 9 "Z") = "X" ∨
        checkBoardStatus (List.replicate 9 "Z") = "O" ∨
        checkBoardStatus (List.replicate 9 "Z") = "T" ∨
        checkBoardStatus (List.replicate 9 "Z") = "") :=
  ⟨by decide, checkBoardStatus_total (List.replicate 9 "Z") (by decide)⟩

/-- C2: the fully occupied board `tieSlotBoard` (rows X O X / X O O / O X T)
has no completed line and every slot non-Empty, yet the client's
`checkBoardStatus` reports `""` (undecided) instead of the claimed `"T"`,
because its fullness test also requires every slot to differ from `"T"`.
The backend's own `checkBoard` reports `"T"` on the same board, matching the
claim — the client implementation contradicts its sibling. -/
theorem checkBoardStatus_tieSlot_board :
    (∀ l ∈ winningLines, ¬ lineWins tieSlotBoard l) ∧
    (∀ v ∈ tieSlotBoard, v ≠ "") ∧
    checkBoardStatus tieSlotBoard = "" ∧
    checkBoard tieSlotBoard winningLines = "T" := by
  decide

/-- C3 (amended): `handleRemoteMove` revalidates only that the game is not
over, that the target big-board slot is open, and that the cell is empty; it
checks neither `nextBoardIndex` nor whose turn it is. -/
theorem handleRemoteMove_rejects_iff (cl : Client) (b c : Nat) :
    handleRemoteMove cl b c = none ↔
      cl.gs.gameOver = true ∨ cl.gs.bigBoard.get? b ≠ some "" ∨ cellAt cl.gs b c ≠ some "" := by
  unfold handleRemoteMove
  split_ifs with h1 h2 h3 <;> simp_all

/-- C3 counterexample: after the host's opening move (4, 4) the host's
`nextBoardIndex` is 4, yet an inbound `Move` naming board 0 is applied and
changes the state; likewise an inbound `Move` arriving at the fresh host
state — the receiving participant's own turn — is applied. -/
theorem handleRemoteMove_no_revalidation :
    ((handleCellClick hostStart 4 4).map fun h1 => h1.gs.nextBoardIndex) = some (some 4) ∧
    ((handleCellClick hostStart 4 4).bind fun h1 =>
      (handleRemoteMove h1 0 0).map fun h2 => decide (h2.gs = h1.gs)) = some false ∧
    hostStart.myTurn = true ∧
    ((handleRemoteMove hostStart 0 0).map fun h2 => decide (h2.gs = hostStart.gs)) = some false := by
  decide

/-- C8 (amended): a "peer-unavailable" dial failure re-dials after the fixed
1500 ms backoff but only while attempts remain; with the budget spent the
procedure reports terminal failure instead of retrying; any other error type
is surfaced immediately with no retry; an opened connection stops dialing. -/
theorem connectToHost_retry_policy :
    (∀ a rest, connectToHost (a + 1) (DialEvent.fail "peer-unavailable" :: rest) =
      ((connectToHost a rest).1, retryDelayMs + (connectToHost a rest).2)) ∧
    (∀ a t rest, t ≠ "peer-unavailable" →
      connectToHost (a + 1) (DialEvent.fail t :: rest) = (DialResult.surfaced t, 0)) ∧
    (∀ events, connectToHost 0 events = (DialResult.gaveUp, 0)) ∧
    (∀ a rest, connectToHost (a + 1) (DialEvent.opened :: rest) = (DialResult.connected, 0)) := by
  refine ⟨fun a rest => ?_, fun a t rest ht => ?_, fun events => ?_, fun a rest => ?_⟩
  · simp [connectToHost]
  · simp [connectToHost, ht]
  · rfl
  · rfl

/-- C8 witness: a non-"peer-unavailable" error is surfaced at once. -/
theorem connectToHost_retry_policy_w :
    ("network" : String) ≠ "peer-unavailable" ∧
      connectToHost 5 [DialEvent.fail "network"] = (DialResult.surfaced "network", 0) :=
  ⟨by decide, connectToHost_retry_policy.2.1 4 "network" [] (by decide)⟩

/-- C8 counterexample: the attempt count is bounded.  Starting from the
initial call (`attemptsLeft = 5`), five consecutive "peer-unavailable"
failures exhaust the budget and the procedure gives up terminally — the
fifth such failure does not schedule another dial, refuting the claimed
unbounded retrying. -/
theorem connectToHost_gives_up_after_five :
    connectToHost 5 (List.replicate 5 (DialEvent.fail "peer-unavailable")) =
      (DialResult.gaveUp, 5 * retryDelayMs) := by
  decide

/-- Every run of the `/api/move` handler either leaves the store untouched or
answers 200 with an updated game. -/
theorem apiMove_fst_or (games : Store) (gid : String) (b c : Nat) (mark : String) :
    (apiMove games gid b c mark).1 = games ∨
      ∃ g2, (apiMove games gid b c mark).2 = ApiResponse.ok g2 := by
  unfold apiMove
  split
  · exact Or.inl rfl
  · split
    · exact Or.inl rfl
    · split
      · exact Or.inl rfl
      · split
        · exact Or.inl rfl
        · split
          · exact Or.inl rfl
          · exact Or.inr ⟨_, rfl⟩

/-- C10: the `/api/move` handler is atomic on error: whenever it answers 400
"Invalid move" or 404, the store of games — in particular the addressed
game object — is exactly what it was before the request; mutation happens
only on the success path. -/
theorem apiMove_error_atomic (games : Store) (gid : String) (b c : Nat) (mark : String)
    (h : (apiMove games gid b c mark).2 = ApiResponse.invalid ∨
      (apiMove games gid b c mark).2 = ApiResponse.notFound) :
    (apiMove games gid b c mark).1 = games := by
  rcases apiMove_fst_or games gid b c mark with h1 | ⟨g2, h2⟩
  · exact h1
  · rcases h with h | h <;> rw [h2] at h <;> exact absurd h (by simp)

/-- C10 witness: a 400 response (board index 9 names no small board) leaves
the one-game store untouched. -/
theorem apiMove_error_atomic_w :
    (apiMove [("g", makeGame "g")] "g" 9 0 "X").2 = ApiResponse.invalid ∧
      (apiMove [("g", makeGame "g")] "g" 9 0 "X").1 = [("g", makeGame "g")] :=
  ⟨by decide, apiMove_error_atomic _ "g" 9 0 "X" (Or.inl (by decide))⟩

/-- C4: in online mode, with the turn bookkeeping in its protocol-maintained
relation to the marks, a click — the local participant asserting its own
mark `myMark` at `(b, c)` — is rejected with no state change exactly when:
the game is over; the asserted mark is not the current turn (the `myTurn`
gate); a present forced board differs from `b`; the target big-board slot is
not open (which covers a board index outside 0–8, where the JS read yields
`undefined`); or the target cell is not empty.  Rejection is an early
`return` before any mutation or send. -/
theorem handleCellClick_rejects_iff (cl : Client) (b c : Nat)
    (hmode : cl.mode = "online")
    (hturn : cl.myTurn = (cl.gs.currentPlayer == cl.myMark)) :
    handleCellClick cl b c = none ↔
      cl.gs.gameOver = true ∨ cl.myMark ≠ cl.gs.currentPlayer ∨
        (∃ f, cl.gs.nextBoardIndex = some f ∧ f ≠ b) ∨
        cl.gs.bigBoard.get? b ≠ some "" ∨ cellAt cl.gs b c ≠ some "" := by
  have hfe : (∃ f, cl.gs.nextBoardIndex = some f ∧ f ≠ b) ↔
      (cl.gs.nextBoardIndex ≠ none ∧ cl.gs.nextBoardIndex ≠ some b) := by
    cases hn : cl.gs.nextBoardIndex <;> simp
  have hmt : (cl.myTurn = false) ↔ cl.myMark ≠ cl.gs.currentPlayer := by
    rw [hturn]
    simp [ne_comm]
  rw [hfe]
  unfold handleCellClick
  by_cases h1 : cl.gs.gameOver = true
  · rw [if_pos h1]
    exact iff_of_true rfl (Or.inl h1)
  · rw [if_neg h1]
    by_cases h2 : cl.myMark ≠ cl.gs.currentPlayer
    · rw [if_pos ⟨hmode, hmt.mpr h2⟩]
      exact iff_of_true rfl (Or.inr (Or.inl h2))
    · rw [if_neg fun hc => h2 (hmt.mp hc.2)]
      by_cases h3 : cl.gs.nextBoardIndex ≠ none ∧ cl.gs.nextBoardIndex ≠ some b
      · rw [if_pos h3]
        exact iff_of_true rfl (Or.inr (Or.inr (Or.inl h3)))
      · rw [if_neg h3]
        by_cases h4 : cl.gs.bigBoard.get? b ≠ some ""
        · rw [if_pos h4]
          exact iff_of_true rfl (Or.inr (Or.inr (Or.inr (Or.inl h4))))
        · rw [if_neg h4]
          by_cases h5 : cellAt cl.gs b c ≠ some ""
          · rw [if_pos h5]
            exact iff_of_true rfl (Or.inr (Or.inr (Or.inr (Or.inr h5))))
          · rw [if_neg h5]
            constructor
            · intro hcon
              split at hcon <;> exact Option.noConfusion hcon
            · intro hr
              rcases hr with h | h | h | h | h
              · exact absurd h h1
              · exact absurd h h2
              · exact absurd h h3
              · exact absurd h h4
              · exact absurd h h5

/-- C4 witness: the fresh host in online mode; a click naming board index 9
(outside the board) is rejected. -/
theorem handleCellClick_rejects_iff_w :
    hostStart.mode = "online" ∧
      hostStart.myTurn = (hostStart.gs.currentPlayer == hostStart.myMark) ∧
      handleCellClick hostStart 9 0 = none :=
  ⟨rfl, by decide, (handleCellClick_rejects_iff hostStart 9 0 rfl (by decide)).mpr (by decide)⟩

/-- C5 (amended): after an accepted move at `(b, c)`, the new
`nextBoardIndex` equals `c` — cleared when big-board slot `c` is settled —
on the local path only when the move does not finish the game (a
game-finishing local move leaves `nextBoardIndex` at its pre-move value),
and on the remote path unconditionally. -/
theorem forced_board_after_move (cl cl2 : Client) (b c : Nat) :
    (handleCellClick cl b c = some cl2 →
      (cl2.gs.gameOver = false →
        cl2.gs.nextBoardIndex = if cl2.gs.bigBoard.get? c ≠ some "" then none else some c) ∧
      (cl2.gs.gameOver = true → cl2.gs.nextBoardIndex = cl.gs.nextBoardIndex)) ∧
    (handleRemoteMove cl b c = some cl2 →
      cl2.gs.nextBoardIndex = if cl2.gs.bigBoard.get? c ≠ some "" then none else some c) := by
  constructor
  · intro h
    unfold handleCellClick at h
    split_ifs at h with h1 h2 h3 h4 h5 h6 <;>
      first
        | exact Option.noConfusion h
        | (cases Option.some.inj h
           refine ⟨fun hgo => ?_, fun hgo => ?_⟩ <;> simp_all [nextForced])
  · intro h
    unfold handleRemoteMove at h
    split_ifs at h with h1 h2 h3 <;>
      first
        | exact Option.noConfusion h
        | (cases Option.some.inj h
           simp_all [nextForced])

/-- C5 witness: the first move of a local game, at board 4 cell 4: the move
does not finish the game and forces board 4. -/
theorem forced_board_after_move_w :
    ∃ cl2, handleCellClick localStart 4 4 = some cl2 ∧ cl2.gs.gameOver = false ∧
      cl2.gs.nextBoardIndex = some 4 := by
  have hs : (handleCellClick localStart 4 4).isSome = true := by decide
  obtain ⟨cl2, h2⟩ := Option.isSome_iff_exists.mp hs
  have hgo : cl2.gs.gameOver = false := by
    have : (handleCellClick localStart 4 4).map (fun x => x.gs.gameOver) = some false := by decide
    rw [h2] at this
    simpa using this
  have hbig : cl2.gs.bigBoard.get? 4 = some "" := by
    have : (handleCellClick localStart 4 4).map (fun x => x.gs.bigBoard.get? 4) = some (some "") := by
      decide
    rw [h2] at this
    simpa using this
  have hn := ((forced_board_after_move localStart cl2 4 4).1 h2).1 hgo
  rw [if_neg (by simp only [ne_eq, not_not]; exact hbig)] at hn
  exact ⟨cl2, h2, hgo, hn⟩

/-- C5 counterexample: the seventeenth move `(2, 5)` of the `moves16` game is
accepted locally and finishes the game; big-board slot 5 is unsettled, so
the claim requires `nextBoardIndex = 5`, but the local path leaves it at its
pre-move value 2. -/
theorem forced_board_after_finishing_move :
    (pair16.bind fun p => (handleCellClick p.1 2 5).map fun h2 =>
      decide (h2.gs.gameOver = true ∧ h2.gs.bigBoard.get? 5 = some "" ∧
        h2.gs.nextBoardIndex = some 2)) = some true := by
  decide

theorem handleCellClick_start_not_over {cl cl2 : Client} {b c : Nat}
    (h : handleCellClick cl b c = some cl2) : cl.gs.gameOver = false := by
  by_cases hgo : cl.gs.gameOver = true
  · unfold handleCellClick at h
    rw [if_pos hgo] at h
    exact Option.noConfusion h
  · exact Bool.eq_false_iff.mpr hgo

theorem handleCellClick_turn_step {cl cl2 : Client} {b c : Nat}
    (h : handleCellClick cl b c = some cl2) (hno : cl2.gs.gameOver = false) :
    cl2.gs.currentPlayer = if cl.gs.currentPlayer = "X" then "O" else "X" := by
  unfold handleCellClick at h
  split_ifs at h with h1 h2 h3 h4 h5 h6 <;>
    first
      | exact Option.noConfusion h
      | (cases Option.some.inj h
         simp_all)

theorem gameOver_rejects (cl : Client) (hgo : cl.gs.gameOver = true) (b c : Nat) :
    handleCellClick cl b c = none ∧ handleRemoteMove cl b c = none :=
  ⟨by unfold handleCellClick; rw [if_pos hgo],
   by unfold handleRemoteMove; rw [if_pos hgo]⟩

theorem replay_append (cl : Client) (xs ys : List (Nat × Nat)) :
    replay cl (xs ++ ys) = (replay cl xs).bind fun m => replay m ys := by
  induction xs generalizing cl with
  | nil => simp [replay]
  | cons m xs ih =>
    obtain ⟨b, c⟩ := m
    simp only [List.cons_append, replay]
    cases handleCellClick cl b c <;> simp [ih]

theorem parityMark_flip (n : Nat) :
    (if parityMark n = "X" then "O" else "X") = parityMark (n + 1) := by
  unfold parityMark
  rcases Nat.mod_two_eq_zero_or_one n with h | h
  · have h1 : (n + 1) % 2 = 1 := by omega
    rw [h, h1]
    decide
  · have h1 : (n + 1) % 2 = 0 := by omega
    rw [h, h1]
    decide

theorem replay_inv (ms : List (Nat × Nat)) (n : Nat) (cl cl' : Client)
    (hcp : cl.gs.gameOver = false → cl.gs.currentPlayer = parityMark n)
    (h : replay cl ms = some cl') :
    cl'.gs.gameOver = false → cl'.gs.currentPlayer = parityMark (n + ms.length) := by
  induction ms generalizing cl n with
  | nil =>
    simp only [replay, Option.some.injEq] at h
    subst h
    simpa using hcp
  | cons m rest ih =>
    obtain ⟨b, c⟩ := m
    rw [replay] at h
    cases hstep : handleCellClick cl b c with
    | none =>
      rw [hstep] at h
      exact Option.noConfusion h
    | some cl2 =>
      rw [hstep] at h
      simp only [Option.some_bind] at h
      have hne := handleCellClick_start_not_over hstep
      have hcp2 : cl2.gs.gameOver = false → cl2.gs.currentPlayer = parityMark (n + 1) := by
        intro hno
        rw [handleCellClick_turn_step hstep hno, hcp hne, parityMark_flip]
      intro hno'
      rw [ih (n + 1) cl2 hcp2 h hno']
      congr 1
      simp only [List.length_cons]
      omega

/-- C6: across any sequence of accepted `handleCellClick` moves from the
fresh game (at most 81 in a full game), the turn strictly alternates: before
the i-th accepted move the game is not over and `currentPlayer` is X for
even i and O for odd i (each accepted move plays exactly `currentPlayer`,
by construction of the handler), after all moves `currentPlayer` matches
the parity of the number of moves unless the last move finished the game,
and once `gameOver` is set neither a local click nor a remote message is
ever accepted again. -/
theorem turn_alternation (ms : List (Nat × Nat)) (cl' : Client)
    (hlen : ms.length ≤ 81) (h : replay localStart ms = some cl') :
    (cl'.gs.gameOver = false → cl'.gs.currentPlayer = parityMark ms.length) ∧
    (∀ i, i < ms.length → ∃ cli, replay localStart (ms.take i) = some cli ∧
      cli.gs.gameOver = false ∧ cli.gs.currentPlayer = parityMark i) ∧
    (cl'.gs.gameOver = true →
      ∀ b c, handleCellClick cl' b c = none ∧ handleRemoteMove cl' b c = none) := by
  have base : localStart.gs.gameOver = false → localStart.gs.currentPlayer = parityMark 0 :=
    fun _ => rfl
  refine ⟨fun hno => ?_, fun i hi => ?_, fun hgo b c => gameOver_rejects cl' hgo b c⟩
  · have := replay_inv ms 0 localStart cl' base h hno
    simpa using this
  · have hsplit : replay localStart (ms.take i ++ ms.drop i) = some cl' := by
      rw [List.take_append_drop]
      exact h
    rw [replay_append] at hsplit
    cases hpre : replay localStart (ms.take i) with
    | none =>
      rw [hpre] at hsplit
      exact Option.noConfusion hsplit
    | some cli =>
      rw [hpre] at hsplit
      simp only [Option.some_bind] at hsplit
      cases hdrop : ms.drop i with
      | nil =>
        exfalso
        have hlen0 := congrArg List.length hdrop
        simp only [List.length_drop, List.length_nil] at hlen0
        omega
      | cons m rest =>
        obtain ⟨b, c⟩ := m
        rw [hdrop, replay] at hsplit
        cases hstep : handleCellClick cli b c with
        | none =>
          rw [hstep] at hsplit
          exact Option.noConfusion hsplit
        | some cl2 =>
          have hno : cli.gs.gameOver = false := handleCellClick_start_not_over hstep
          have htake : (ms.take i).length = i := by
            rw [List.length_take]
            omega
          have hcp := replay_inv (ms.take i) 0 localStart cli base hpre hno
          rw [htake] at hcp
          simp only [Nat.zero_add] at hcp
          exact ⟨cli, rfl, hno, hcp⟩

/-- C6 witness: one accepted move from the fresh local game flips the turn
from X to O. -/
theorem turn_alternation_w :
    ∃ cl', replay localStart [(4, 4)] = some cl' ∧ cl'.gs.currentPlayer = "O" := by
  have hs : (replay localStart [(4, 4)]).isSome = true := by decide
  obtain ⟨cl', h⟩ := Option.isSome_iff_exists.mp hs
  have hgo : cl'.gs.gameOver = false := by
    have hm : (replay localStart [(4, 4)]).map (fun x => x.gs.gameOver) = some false := by decide
    rw [h] at hm
    simpa using hm
  have := (turn_alternation [(4, 4)] cl' (by decide) h).1 hgo
  exact ⟨cl', h, by simpa [parityMark] using this⟩

/-- C1 counterexample: after the sixteen moves of `moves16` the two
participants hold bit-identical `GameState`s (a reachable pair); the host
then locally accepts the game-winning move `(2, 5)` and the client applies
the same `Move` message remotely, and the resulting `GameState`s differ
(locally `nextBoardIndex`/`currentPlayer` are frozen at 2/"X", remotely they
become 5/"O"). -/
theorem convergence_fails_on_finishing_move :
    (pair16.map fun p => decide (p.1.gs = p.2.gs)) = some true ∧
    (pair16.bind fun p => (handleCellClick p.1 2 5).map fun h2 => h2.gs.gameOver) = some true ∧
    (pair16.bind fun p => (handleCellClick p.1 2 5).bind fun h2 =>
      (handleRemoteMove p.2 2 5).map fun c2 => decide (h2.gs = c2.gs)) = some false := by
  refine ⟨by decide, by decide, by decide⟩

/-- C1 (amended): for bit-identical `GameState`s on the two participants with
the protocol's mark assignment (the mover's mark is the shared
`currentPlayer` and equals the receiver's `opponentMark`; the two `myMark`s
are X and O in opposite order), a move locally accepted by `handleCellClick`
is also accepted by the peer's `handleRemoteMove`, and the two resulting
`GameState`s again agree on `smallBoards`, `bigBoard` and `gameOver`; they
are bit-identical in full (including `nextBoardIndex` and `currentPlayer`)
whenever the move does not finish the game.  (A finishing move breaks full
bit-identity — see the counterexample.) -/
theorem move_convergence (s r : Client) (b c : Nat) (s2 : Client)
    (hgs : s.gs = r.gs)
    (hm : s.myMark = "X" ∧ r.myMark = "O" ∨ s.myMark = "O" ∧ r.myMark = "X")
    (ho : r.opponentMark = s.myMark)
    (ht : s.gs.currentPlayer = s.myMark)
    (hacc : handleCellClick s b c = some s2) :
    ∃ r2, handleRemoteMove r b c = some r2 ∧
      r2.gs.smallBoards = s2.gs.smallBoards ∧ r2.gs.bigBoard = s2.gs.bigBoard ∧
      r2.gs.gameOver = s2.gs.gameOver ∧
      (s2.gs.gameOver = false → r2.gs = s2.gs) := by
  have hmark : r.opponentMark = s.gs.currentPlayer := by rw [ho, ht]
  have hgof : s.gs.gameOver = false := handleCellClick_start_not_over hacc
  unfold handleCellClick at hacc
  set cp2 := (if s.gs.currentPlayer = "X" then "O" else "X") with hcp2
  set mt2 := (if s.mode = "online" then false else s.myTurn) with hmt2
  unfold handleRemoteMove
  rw [← hgs, hmark]
  split_ifs at hacc with h1 h2 h3 h4 h5 h6
  · -- the move finishes the game on the sender
    cases Option.some.inj hacc
    rw [if_neg h1, if_neg h4, if_neg h5]
    generalize hbb : checkBoardStatus (moveBig s.gs b c s.gs.currentPlayer) = bb at h6 ⊢
    refine ⟨_, rfl, rfl, rfl, ?_, fun hcon => Bool.noConfusion hcon⟩
    show decide (bb = r.myMark ∨ bb = s.gs.currentPlayer ∨ bb = "T") = true
    apply decide_eq_true
    rcases hm with ⟨hsm, hrm⟩ | ⟨hsm, hrm⟩ <;> rw [hrm, ht, hsm] <;>
      rcases h6 with h | h | h <;> subst h <;> decide
  · -- the move does not finish the game on the sender
    cases Option.some.inj hacc
    rw [if_neg h1, if_neg h4, if_neg h5]
    generalize hbb : checkBoardStatus (moveBig s.gs b c s.gs.currentPlayer) = bb at h6 ⊢
    refine ⟨_, rfl, rfl, rfl, ?_, fun _ => ?_⟩
    · show decide (bb = r.myMark ∨ bb = s.gs.currentPlayer ∨ bb = "T") = s.gs.gameOver
      rw [hgof]
      apply decide_eq_false
      intro hcon
      rcases hm with ⟨hsm, hrm⟩ | ⟨hsm, hrm⟩ <;> rw [hrm, ht, hsm] at hcon <;>
        rcases hcon with h | h | h <;> subst h <;> exact h6 (by decide)
    · apply GameState.ext
      · rfl
      · rfl
      · rfl
      · show r.myMark = cp2
        rw [hcp2]
        rcases hm with ⟨hsm, hrm⟩ | ⟨hsm, hrm⟩ <;> rw [hrm, ht, hsm] <;> rfl
      · show decide (bb = r.myMark ∨ bb = s.gs.currentPlayer ∨ bb = "T") = s.gs.gameOver
        rw [hgof]
        apply decide_eq_false
        intro hcon
        rcases hm with ⟨hsm, hrm⟩ | ⟨hsm, hrm⟩ <;> rw [hrm, ht, hsm] at hcon <;>
          rcases hcon with h | h | h <;> subst h <;> exact h6 (by decide)


/-- C1 witness: the opening move (4, 4) from the two fresh participants: the
host accepts it locally, the client accepts the identical `Move` message,
and the two `GameState`s are bit-identical afterwards. -/
theorem move_convergence_w :
    ∃ s2 r2, handleCellClick hostStart 4 4 = some s2 ∧
      handleRemoteMove clientStart 4 4 = some r2 ∧ r2.gs = s2.gs := by
  have hs : (handleCellClick hostStart 4 4).isSome = true := by decide
  obtain ⟨s2, hs2⟩ := Option.isSome_iff_exists.mp hs
  obtain ⟨r2, hr2, -, -, -, hfull⟩ :=
    move_convergence hostStart clientStart 4 4 s2 rfl (Or.inl ⟨rfl, rfl⟩) rfl rfl hs2
  have hgo : s2.gs.gameOver = false := by
    have hm2 : (handleCellClick hostStart 4 4).map (fun x => x.gs.gameOver) = some false := by
      decide
    rw [hs2] at hm2
    simpa using hm2
  exact ⟨s2, r2, hs2, hr2, hfull hgo⟩

/-- C7 (amended): for a stored, unfinished game, `/api/move` answers the 400
"Invalid move" error exactly when `boardIdx` names no small board, the
target cell is occupied, or a present forced board differs from `boardIdx`;
in every other case it applies the move — `applyApiMove` — stores it and
answers it with 200.  The handler checks neither that `mark` equals the
stored `currentPlayer` nor that the target big-board slot is unsettled, so
moves that the game engine would reject are accepted. -/
theorem apiMove_invalid_iff (games : Store) (gid : String) (b c : Nat) (mark : String)
    (game : ServerGame) (hfind : List.lookup gid games = some game)
    (hover : game.gameOver = false) :
    ((apiMove games gid b c mark).2 = ApiResponse.invalid ↔
      game.smallBoards.get? b = none ∨
        (∃ sb, game.smallBoards.get? b = some sb ∧ sb.getD c "" ≠ "") ∨
        (game.nextBoardIndex ≠ none ∧ game.nextBoardIndex ≠ some b)) ∧
    (∀ sb, game.smallBoards.get? b = some sb → sb.getD c "" = "" →
      ¬(game.nextBoardIndex ≠ none ∧ game.nextBoardIndex ≠ some b) →
      apiMove games gid b c mark =
        (storePut games gid (applyApiMove game sb b c mark),
          ApiResponse.ok (applyApiMove game sb b c mark))) := by
  have hnotover : ¬(game.gameOver = true) := by
    rw [hover]
    exact Bool.false_ne_true
  unfold apiMove
  simp only [hfind]
  rw [if_neg hnotover]
  split
  next heqnone =>
    refine ⟨iff_of_true rfl (Or.inl heqnone), fun sb hcon => ?_⟩
    rw [heqnone] at hcon
    exact Option.noConfusion hcon
  next sb heqsb =>
    by_cases h2 : sb.getD c "" ≠ ""
    · rw [if_pos h2]
      refine ⟨iff_of_true rfl (Or.inr (Or.inl ⟨sb, heqsb, h2⟩)), fun sb2 hsb2 hc2 => ?_⟩
      rw [heqsb] at hsb2
      cases Option.some.inj hsb2
      exact absurd hc2 (by intro he; exact h2 he)
    · rw [if_neg h2]
      by_cases h3 : game.nextBoardIndex ≠ none ∧ game.nextBoardIndex ≠ some b
      · rw [if_pos h3]
        refine ⟨iff_of_true rfl (Or.inr (Or.inr h3)), fun sb2 hsb2 hc2 hf2 => ?_⟩
        exact absurd h3 hf2
      · rw [if_neg h3]
        constructor
        · refine iff_of_false (by simp) ?_
          rintro (hn | ⟨sb2, hsb2, hne⟩ | hf)
          · rw [heqsb] at hn
            exact Option.noConfusion hn
          · rw [heqsb] at hsb2
            cases Option.some.inj hsb2
            exact h2 hne
          · exact h3 hf
        · intro sb2 hsb2 hc2 hf2
          rw [heqsb] at hsb2
          cases Option.some.inj hsb2
          rfl

/-- C7 witness: on a fresh stored game, a move into an empty cell with no
forced board is not answered with the 400 error (it is applied), even here
where the submitted mark "O" is not the mover whose turn it is. -/
theorem apiMove_invalid_iff_w :
    List.lookup "g" [("g", makeGame "g")] = some (makeGame "g") ∧
      (makeGame "g").gameOver = false ∧
      (apiMove [("g", makeGame "g")] "g" 0 0 "O").2 ≠ ApiResponse.invalid := by
  refine ⟨by decide, rfl, fun hbad => ?_⟩
  have hchar := apiMove_invalid_iff [("g", makeGame "g")] "g" 0 0 "O" (makeGame "g")
    (by decide) rfl
  have := hchar.1.mp hbad
  revert this
  decide

/-- C7 counterexample: the stored fresh game has `currentPlayer = "X"`, so a
move asserting mark "O" is illegal under the engine rules; `/api/move`
nevertheless applies it (no error; the cell now holds "O" and
`currentPlayer` was flipped to "X" from the submitted mark). -/
theorem apiMove_accepts_wrong_mark :
    (makeGame "g").currentPlayer = "X" ∧
    (apiMove [("g", makeGame "g")] "g" 4 4 "O").2 ≠ ApiResponse.invalid ∧
    (apiMove [("g", makeGame "g")] "g" 4 4 "O").2 ≠ ApiResponse.notFound ∧
    ((List.lookup "g" (apiMove [("g", makeGame "g")] "g" 4 4 "O").1).map
      fun g => (g.smallBoards.getD 4 []).getD 4 "") = some "O" := by
  refine ⟨rfl, by decide, by decide, by decide⟩

end UTTT
